import Mathlib

set_option autoImplicit false

/-!
Verification development for the smsDbViewer repository (Go).

The repository is a read-only TUI viewer over an iMessage-style SQLite
database.  We give a shallow embedding of its core:

* the string/attachment codec of `db.go` (`parseAttachments`,
  `attachmentLabel`, `formatBytes`),
* the time codec `appleNanosToTime`,
* the query layer `Store.FetchMessages` / `Store.FetchAllMessages`
  (the database is modelled as the list of joined message rows the SQL
  queries range over),
* the Bubble Tea coordinator `model.Update` of `model.go` (the fields the
  UI-library widgets own — viewport scroll position, list widgets — are
  abstracted to the data the program feeds them).

Go strings are modelled as `List Char` so that every operation is a
structurally recursive function the kernel can evaluate; the Go standard
library functions used by the source (`strings.Split`, `strings.SplitN`,
`strings.ToLower`, `strings.TrimSpace`, `strings.HasPrefix`,
`strings.Contains`, `strings.ContainsAny`, `strings.ReplaceAll`,
`strconv.ParseInt`) are embedded at that level.  `ToLower`/`TrimSpace` are
modelled on the ASCII range, which covers every string the source applies
them to (MIME types and whitespace).
-/

/-! ## Go string primitives over `List Char` -/

/-- Character-level model of Go `strings.Split(s, sep)` for the two-byte
separators used by the source (`";;"` and `"||"`, both a doubled
character).  Scans left to right, non-overlapping, like Go. -/
def split2 (a b : Char) : List Char → List (List Char)
  | [] => [[]]
  | [c] => [[c]]
  | c :: d :: rest =>
    if c = a ∧ d = b then
      [] :: split2 a b rest
    else
      match split2 a b (d :: rest) with
      | [] => [[c]]
      | t :: ts => (c :: t) :: ts

/-- Character-level model of Go `strings.SplitN(s, sep, n+1)` for a doubled
character separator: `n` is the number of splits still allowed, so the
result has at most `n+1` pieces and the final piece keeps any further
separators verbatim, as in Go. -/
def split2N (a b : Char) : Nat → List Char → List (List Char)
  | _, [] => [[]]
  | 0, s => [s]
  | _ + 1, [c] => [[c]]
  | n + 1, c :: d :: rest =>
    if c = a ∧ d = b then
      [] :: split2N a b n rest
    else
      match split2N a b (n + 1) (d :: rest) with
      | [] => [[c]]
      | t :: ts => (c :: t) :: ts

/-- Whitespace set trimmed by Go `strings.TrimSpace` (ASCII fragment of
Unicode White_Space: tab, newline, vertical tab, form feed, carriage
return, space). -/
def goIsSpace (c : Char) : Bool :=
  c = ' ' ∨ c = '\t' ∨ c = '\n' ∨ c = Char.ofNat 11 ∨ c = Char.ofNat 12 ∨ c = '\r'

/-- Model of Go `strings.TrimSpace` (ASCII whitespace). -/
def trimSpace (s : List Char) : List Char :=
  ((s.dropWhile goIsSpace).reverse.dropWhile goIsSpace).reverse

/-- Model of Go `strings.ToLower` (ASCII range; every string the source
lowercases is a MIME type, hence ASCII). -/
def toLowerChars (s : List Char) : List Char :=
  s.map Char.toLower

/-- Helper for `goContains`: does `sub` occur starting at some suffix? -/
def goContainsAux (sub : List Char) : List Char → Bool
  | [] => sub.isPrefixOf []
  | c :: r => sub.isPrefixOf (c :: r) || goContainsAux sub r

/-- Model of Go `strings.Contains(s, sub)`. -/
def goContains (s sub : List Char) : Bool :=
  goContainsAux sub s

/-- Model of Go `strings.ContainsAny(s, chars)`: does `s` contain any
character of `chars`? -/
def goContainsAny (s chars : List Char) : Bool :=
  s.any (fun c => c ∈ chars)

/-- Decimal digit run to a number; `none` when empty or on the first
non-digit character (Go `strconv.ParseInt` syntax error). -/
def digitsToNatAux : List Char → Nat → Option Nat
  | [], acc => some acc
  | c :: r, acc =>
    if '0' ≤ c ∧ c ≤ '9' then digitsToNatAux r (acc * 10 + (c.toNat - 48))
    else none

/-- Value of a nonempty all-digit string, `none` otherwise. -/
def digitsToNat : List Char → Option Nat
  | [] => none
  | l => digitsToNatAux l 0

/-- Model of the `size, _ = strconv.ParseInt(fields[2], 10, 64)` idiom of
`db.go`: the error is discarded, so a syntax error leaves `size = 0` and a
range error leaves the clamped extreme value that Go returns alongside the
error. -/
def goParseInt64 (s : List Char) : Int :=
  let signed : Bool × List Char :=
    match s with
    | '+' :: r => (false, r)
    | '-' :: r => (true, r)
    | r => (false, r)
  match digitsToNat signed.2 with
  | none => 0
  | some v =>
    let i : Int := if signed.1 then -(v : Int) else (v : Int)
    if 9223372036854775807 < i then 9223372036854775807
    else if i < -9223372036854775808 then -9223372036854775808
    else i

/-! ## Time codec (`db.go`: `appleEpochOffset`, `appleNanosToTime`) -/

/-- Constant `appleEpochOffset` of `db.go`: seconds between the Apple
epoch (2001-01-01) and the Unix epoch. -/
def appleEpochOffset : Int := 978307200

/-- Model of a Go `time.Time` value by its instant: nanoseconds since the
Unix epoch.  (The source only constructs times via `time.Time{}` and
`time.Unix`, and only compares/format them by instant.) -/
structure GoTime where
  unixNanos : Int
deriving DecidableEq, Repr

/-- Go zero value `time.Time{}`: January 1, year 1, 00:00:00 UTC, i.e.
-62135596800 seconds before the Unix epoch. -/
def goZeroTime : GoTime := ⟨-62135596800 * 1000000000⟩

/-- Model of Go `time.Unix(sec, nsec)` as an instant. -/
def timeUnix (sec nsec : Int) : GoTime := ⟨sec * 1000000000 + nsec⟩

/-- Embedding of `appleNanosToTime` (`db.go` lines 178-185).  Go integer
division and remainder truncate toward zero, hence `Int.tdiv`/`Int.tmod`. -/
def appleNanosToTime (nanos : Int) : GoTime :=
  if nanos = 0 then goZeroTime
  else timeUnix (nanos.tdiv 1000000000 + appleEpochOffset) (nanos.tmod 1000000000)

/-! ## Byte formatting (`db.go`: `formatBytes`) -/

/-- Decimal digits of a natural number, fuel-driven so the kernel can
evaluate it. -/
def natToStrAux : Nat → Nat → List Char
  | 0, _ => []
  | fuel + 1, n =>
    if n < 10 then [Char.ofNat (48 + n)]
    else natToStrAux fuel (n / 10) ++ [Char.ofNat (48 + n % 10)]

/-- Model of Go `%d` formatting of a natural number. -/
def natToStr (n : Nat) : List Char := natToStrAux (n + 1) n

/-- Model of Go `%d` formatting of an `int64`. -/
def intToStr (i : Int) : List Char :=
  if i < 0 then '-' :: natToStr (-i).toNat else natToStr i.toNat

/-- Model of Go `fmt.Sprintf("%.1f", float64(b)/float64(2^shift))` for a
non-negative integer `b`: the quotient is an exact binary rational for
`b < 2^53`, and Go's formatter prints the correctly rounded one-decimal
value with ties to even, which is computed here in exact arithmetic. -/
def fmtOneDec (b : Nat) (shift : Nat) : List Char :=
  let num := 10 * b
  let den := 2 ^ shift
  let q := num / den
  let r := num % den
  let tenths :=
    if 2 * r < den then q
    else if den < 2 * r then q + 1
    else if q % 2 = 0 then q else q + 1
  natToStr (tenths / 10) ++ '.' :: [Char.ofNat (48 + tenths % 10)]

/-- Embedding of `formatBytes` (`db.go` lines 58-69): binary thresholds
`1<<30`, `1<<20`, `1<<10` checked largest first, scaled value printed with
one decimal, bytes below 1024 printed as a plain integer. -/
def formatBytes (b : Int) : List Char :=
  if 1073741824 ≤ b then fmtOneDec b.toNat 30 ++ " GB".data
  else if 1048576 ≤ b then fmtOneDec b.toNat 20 ++ " MB".data
  else if 1024 ≤ b then fmtOneDec b.toNat 10 ++ " KB".data
  else intToStr b ++ " B".data

/-! ## Attachment codec (`db.go`: `attachmentLabel`, `parseAttachments`) -/

/-- Record type `AttachmentInfo` of `db.go`. -/
structure AttachmentInfo where
  typeLabel : List Char
  filename : List Char
  size : Int
deriving DecidableEq, Repr

/-- Embedding of `attachmentLabel` (`db.go` lines 72-114), the
MIME-type-to-label mapping, case for case in source order.  Go's
`strings.TrimPrefix(mime, "image/")` is `List.drop 6` here because the
branch is only reached when the prefix is present. -/
def attachmentLabel (mime0 : List Char) : List Char :=
  let mime := trimSpace (toLowerChars mime0)
  if "image/".data.isPrefixOf mime then
    let sub := mime.drop 6
    if sub = "jpeg".data ∨ sub = "jpg".data then "photo".data
    else if sub = "png".data then "image".data
    else if sub = "heic".data ∨ sub = "heif".data then "photo".data
    else if sub = "gif".data then "GIF".data
    else if sub = "webp".data then "image".data
    else "image".data
  else if "video/".data.isPrefixOf mime then "video".data
  else if "audio/".data.isPrefixOf mime then "audio".data
  else if mime = "application/pdf".data then "PDF".data
  else if mime = "text/vcard".data then "contact card".data
  else if mime = "text/x-markdown".data then "markdown".data
  else if goContains mime "zip".data ∨ goContains mime "archive".data then "archive".data
  else if goContains mime "iwork-numbers".data then "Numbers spreadsheet".data
  else if goContains mime "iwork-pages".data then "Pages document".data
  else if goContains mime "iwork-keynote".data then "Keynote presentation".data
  else if mime = [] then "attachment".data
  else "file".data

/-- Loop body of `parseAttachments` for a single `";;"`-separated entry:
split on `"||"` into at most 3 fields, read mime / name / size, and skip
(`none`) the fully-empty entry a LEFT JOIN null row produces. -/
def parseEntry (entry : List Char) : Option AttachmentInfo :=
  let fields := split2N '|' '|' 2 entry
  let mime := fields.headD []
  let name := (fields.drop 1).headD []
  let size : Int := if 2 < fields.length then goParseInt64 ((fields.drop 2).headD []) else 0
  if mime = [] ∧ name = [] ∧ size = 0 then none
  else some ⟨attachmentLabel mime, name, size⟩

/-- Embedding of `parseAttachments` (`db.go` lines 119-150): empty input
gives no attachments, otherwise split on `";;"` and run the entry loop;
the append-unless-skipped loop is rendered as `filterMap`. -/
def parseAttachments (raw : List Char) : List AttachmentInfo :=
  if raw = [] then []
  else (split2 ';' ';' raw).filterMap parseEntry

/-! ## CSV escaping (`export.go`: `csvEscape`) -/

/-- Character-level model of Go
`strings.ReplaceAll(s, \x22, \x22\x22)`: the pattern is the single
character `"` so every occurrence is doubled. -/
def doubleQuotes : List Char → List Char
  | [] => []
  | c :: r => if c = '"' then '"' :: '"' :: doubleQuotes r else c :: doubleQuotes r

/-- Embedding of `csvEscape` (export source, lines 273-280): wrap in
double quotes, doubling internal quotes, iff the field contains a comma,
double quote, newline or carriage return. -/
def csvEscape (s : List Char) : List Char :=
  if goContainsAny s [',', '"', '\n', '\r'] then
    '"' :: doubleQuotes s ++ ['"']
  else s

/-! ## Query layer (`db.go`: `Store.FetchMessages`, `Store.FetchAllMessages`)

The two message queries range over the join
`message ⋈ chat_message_join ⋈ handle ⋈ attachments` and scan one row per
message `ROWID` (the `GROUP BY m.ROWID` collapses the attachment join into
the `GROUP_CONCAT` string).  We model the database as the list of those
joined rows: one `MsgRow` per (chat, message) pair, carrying the scanned
columns, with the `GROUP_CONCAT` result as the raw attachment string. -/

/-- One row of the grouped message join: the columns
`Store.FetchMessages` / `Store.FetchAllMessages` scan. -/
structure MsgRow where
  chatId : Int
  rowid : Int
  text : List Char
  dateNanos : Int
  isFromMe : Bool
  handleId : List Char
  service : List Char
  attachRaw : List Char
deriving DecidableEq, Repr

/-- Record type `Message` of `db.go`. -/
structure Message where
  rowid : Int
  text : List Char
  date : GoTime
  isFromMe : Bool
  sender : List Char
  service : List Char
  attachments : List AttachmentInfo
deriving DecidableEq, Repr

/-- Row scan loop body shared by both queries (`db.go` lines 329-340 and
372-383): decode the date and the packed attachment string. -/
def scanRow (r : MsgRow) : Message :=
  { rowid := r.rowid
    text := r.text
    date := appleNanosToTime r.dateNanos
    isFromMe := r.isFromMe
    sender := r.handleId
    service := r.service
    attachments := parseAttachments r.attachRaw }

/-- The `Store` of `db.go`, holding the database it queries. -/
structure Store where
  db : List MsgRow

/-- Constant `messagesPageSize` of `db.go`. -/
def messagesPageSize : Int := 200

/-- SQL `ORDER BY m.date DESC` comparison on rows. -/
def dateDescLe (a b : MsgRow) : Prop := b.dateNanos ≤ a.dateNanos

/-- SQL `ORDER BY m.date ASC` comparison on rows. -/
def dateAscLe (a b : MsgRow) : Prop := a.dateNanos ≤ b.dateNanos

instance : DecidableRel dateDescLe := fun a b =>
  inferInstanceAs (Decidable (b.dateNanos ≤ a.dateNanos))

instance : DecidableRel dateAscLe := fun a b =>
  inferInstanceAs (Decidable (a.dateNanos ≤ b.dateNanos))

instance : IsTotal MsgRow dateDescLe := ⟨fun a b => le_total b.dateNanos a.dateNanos⟩

instance : IsTotal MsgRow dateAscLe := ⟨fun a b => le_total a.dateNanos b.dateNanos⟩

instance : IsTrans MsgRow dateDescLe := ⟨fun _ _ _ h1 h2 => le_trans h2 h1⟩

instance : IsTrans MsgRow dateAscLe := ⟨fun _ _ _ h1 h2 => le_trans h1 h2⟩

/-- Rows of one conversation: the `WHERE cmj.chat_id = ?` filter. -/
def chatRows (db : List MsgRow) (chatID : Int) : List MsgRow :=
  db.filter (fun r => r.chatId = chatID)

/-- Embedding of `Store.FetchMessages` (`db.go` lines 280-348): default
the page size, restrict to the conversation, apply the `ROWID < cursor`
bound unless the cursor is the sentinel `0`, order by date descending,
take `LIMIT pageSize`, then reverse to chronological order and scan. -/
def Store.FetchMessages (s : Store) (chatID cursor pageSize : Int) : List Message :=
  let pageSize := if pageSize ≤ 0 then messagesPageSize else pageSize
  let pool :=
    if cursor = 0 then chatRows s.db chatID
    else (chatRows s.db chatID).filter (fun r => r.rowid < cursor)
  let sorted := pool.insertionSort dateDescLe
  ((sorted.take pageSize.toNat).reverse).map scanRow

/-- Embedding of `Store.FetchAllMessages` (`db.go` lines 350-385): the
whole conversation ordered by date ascending. -/
def Store.FetchAllMessages (s : Store) (chatID : Int) : List Message :=
  (((chatRows s.db chatID).insertionSort dateAscLe)).map scanRow

/-- Smallest `ROWID` of a fetched page (the cursor the claim's pagination
procedure feeds to the next call); `0` on an empty page. -/
def minRowid : List Message → Int
  | [] => 0
  | m :: ms => ms.foldl (fun acc x => min acc x.rowid) m.rowid

/-- The pagination procedure of claim C1: call `FetchMessages`, stop on an
empty page, otherwise recurse with the page's smallest `ROWID` as cursor
and concatenate oldest-first.  `fuel` bounds the number of calls; the C1
theorem shows any `fuel` beyond the conversation size reaches the empty
page. -/
def fetchChain (s : Store) (chatID pageSize : Int) : Nat → Int → List Message
  | 0, _ => []
  | fuel + 1, cursor =>
    let page := s.FetchMessages chatID cursor pageSize
    if page = [] then []
    else fetchChain s chatID pageSize fuel (minRowid page) ++ page

/-! ## Coordinator (`model.go`: `model`, `model.Update`)

The Bubble Tea `model` struct is embedded with its semantic fields.  Data
owned by the UI-library widgets is abstracted to what the program feeds
them: the viewport's content becomes the argument tuple of
`renderMessages` (which reads exactly `m.messages`, `m.allLoaded`,
`m.loading` besides static styles), the `bubbles/list` widgets become the
item lists and titles given to `SetItems`/`Title`, and the text input
becomes its focus flag with the typed query carried by the submit event.
Scroll position lives inside the viewport widget, so the key event for the
message view carries the `viewport.AtTop()` value the guard reads.  Title
strings produced by the external contact resolver (spec §1 excludes
contact lookup) are not modelled; no claim mentions them. -/

/-- View states of `model.go` lines 16-23. -/
inductive ViewState
  | viewConversations
  | viewMessages
  | viewSearch
  | viewAttachments
deriving DecidableEq, Repr

/-- Go `error` values, by their message. -/
abbrev GoErr := List Char

/-- Record type `Conversation` of `db.go`. -/
structure Conversation where
  chatID : Int
  identifier : List Char
  displayName : List Char
  participants : List (List Char)
  serviceName : List Char
  firstMsgDate : GoTime
  lastMsgDate : GoTime
  messageCount : Int
  sentCount : Int
  receivedCount : Int
  style : Int
deriving DecidableEq, Repr

/-- Record type `SearchResult` of `db.go` (an embedded `Message` plus the
owning chat). -/
structure SearchResult where
  msg : Message
  chatID : Int
  chatName : List Char
deriving DecidableEq, Repr

/-- Record type `ChatAttachment` of `db.go`. -/
structure ChatAttachment where
  rowid : Int
  filePath : List Char
  filename : List Char
  mimeType : List Char
  typeLabel : List Char
  size : Int
  date : GoTime
  isFromMe : Bool
  sender : List Char
deriving DecidableEq, Repr

/-- Abstraction of the string `renderMessages` produces: the model fields
it reads.  Two equal snapshots render to the same string. -/
structure RenderSnapshot where
  messages : List Message
  allLoaded : Bool
  loading : Bool
deriving DecidableEq, Repr

/-- Abstraction of the `bubbles/list` title strings the coordinator sets
(`fmt.Sprintf` with a count is kept symbolic). -/
inductive ListTitle
  | fixed (s : List Char)
  | attachmentsCount (n : Nat)
  | searchCount (n : Nat) (term : List Char)
  | loadingAttachments
  | searchingTitle
deriving DecidableEq, Repr

/-- Embedding of the `model` struct of `model.go` lines 25-58 (widget-owned
data abstracted as described above). -/
structure TeaModel where
  state : ViewState
  err : Option GoErr
  convItems : List Conversation
  vpContent : Option RenderSnapshot
  messages : List Message
  activeChatID : Int
  activeParticipants : List (List Char)
  activeMsgCount : Int
  oldestCursor : Int
  allLoaded : Bool
  loading : Bool
  searchFocused : Bool
  searchItems : List SearchResult
  searchTitle : ListTitle
  searching : Bool
  searchTerm : List Char
  exporting : Bool
  exportStatus : List Char
  attachmentItems : List ChatAttachment
  attachmentTitle : ListTitle
deriving DecidableEq, Repr

/-- The events `model.Update` handles.  Asynchronous result messages carry
the payload of the corresponding Go message struct; key messages are
per-view semantic events (a key reaching a view's handler), with
widget-owned inputs (`viewport.AtTop()`, the typed query, the list filter
state, the selected item) carried as parameters. -/
inductive TeaMsg
  | conversationsLoaded (conversations : List Conversation) (err : Option GoErr)
  | messagesLoaded (messages : List Message) (chatID : Int) (prepend : Bool) (err : Option GoErr)
  | searchResults (results : List SearchResult) (term : List Char) (err : Option GoErr)
  | exportDone (path : List Char) (err : Option GoErr)
  | attachmentsLoaded (attachments : List ChatAttachment) (err : Option GoErr)
  | attachmentOpened (err : Option GoErr)
  | windowSize
  | ctrlC
  | keyEnterConversation (conv : Conversation)
  | keyOpenSearch
  | keyEscMessages
  | keyGotoTop
  | keyGotoBottom
  | keyExport
  | keyOpenAttachments
  | keyOtherMessages (atTopAfter : Bool)
  | keySearchSubmit (query : List Char)
  | keySearchEsc
  | keySearchNew
  | keySearchOpen (hit : SearchResult)
  | keyAttachmentsEsc (filtering : Bool)
  | keyAttachmentOpen (att : ChatAttachment)
deriving DecidableEq, Repr

/-- Commands `model.Update` returns: quit, the asynchronous fetches
(carrying the arguments the closure captures), or an opaque widget
command (`SetItems`, `Blink`, viewport scrolling). -/
inductive TeaCmd
  | idle
  | quit
  | fetchMessagesCmd (chatID cursor : Int) (prepend : Bool)
  | fetchAttachmentsCmd (chatID : Int)
  | searchCmd (term : List Char)
  | exportCmd (chatID : Int)
  | openAttachmentCmd (path : List Char)
  | widgetCmd
deriving DecidableEq, Repr

/-- Current `renderMessages` input of a model. -/
def renderSnap (m : TeaModel) : RenderSnapshot :=
  ⟨m.messages, m.allLoaded, m.loading⟩

/-- Embedding of `NewModel` (`model.go` lines 259-299): initial state with
Go zero values for the fields `NewModel` leaves unset. -/
def initModel : TeaModel :=
  { state := .viewConversations
    err := none
    convItems := []
    vpContent := none
    messages := []
    activeChatID := 0
    activeParticipants := []
    activeMsgCount := 0
    oldestCursor := 0
    allLoaded := false
    loading := false
    searchFocused := false
    searchItems := []
    searchTitle := .fixed "Search Results".data
    searching := false
    searchTerm := []
    exporting := false
    exportStatus := []
    attachmentItems := []
    attachmentTitle := .fixed "Attachments".data }

/-- Embedding of `model.Update` (`model.go` lines 308-454) together with
the per-view key handlers `updateConversationList` (456-492),
`updateMessageView` (494-530), `updateSearchView` (532-596) and
`updateAttachmentView` (598-623).  Each key event is guarded by the view
whose handler would receive it; a key event arriving in another view is a
no-op here (the real dispatcher would never deliver it there). -/
def update (m : TeaModel) : TeaMsg → TeaModel × TeaCmd
  | .conversationsLoaded convs err =>
    match err with
    | some e => ({ m with err := some e }, .quit)
    | none => ({ m with convItems := convs }, .widgetCmd)
  | .messagesLoaded msgs chatID prepend err =>
    match err with
    | some e => ({ m with err := some e }, .idle)
    | none =>
      if chatID ≠ m.activeChatID then (m, .idle)
      else
        let m1 := { m with loading := false }
        if msgs = [] then
          let m2 := { m1 with allLoaded := true }
          ({ m2 with vpContent := some (renderSnap m2) }, .idle)
        else
          let m2 :=
            { m1 with messages := if prepend then msgs ++ m1.messages else msgs }
          let m3 :=
            { m2 with
                oldestCursor :=
                  match m2.messages with
                  | mm :: _ => mm.rowid
                  | [] => m2.oldestCursor }
          let m4 :=
            if (msgs.length : Int) < messagesPageSize then { m3 with allLoaded := true }
            else m3
          ({ m4 with vpContent := some (renderSnap m4) }, .idle)
  | .searchResults results term err =>
    let m1 := { m with searching := false }
    match err with
    | some e => ({ m1 with err := some e }, .idle)
    | none =>
      ({ m1 with
          searchTerm := term
          searchItems := results
          searchTitle := .searchCount results.length term }, .widgetCmd)
  | .exportDone path err =>
    let m1 := { m with exporting := false }
    match err with
    | some e => ({ m1 with exportStatus := "Export failed: ".data ++ e }, .idle)
    | none => ({ m1 with exportStatus := "Exported to ".data ++ path }, .idle)
  | .attachmentsLoaded atts err =>
    match err with
    | some e => ({ m with err := some e }, .idle)
    | none =>
      ({ m with
          attachmentItems := atts
          attachmentTitle := .attachmentsCount atts.length }, .widgetCmd)
  | .attachmentOpened err =>
    match err with
    | some e => ({ m with exportStatus := "Failed to open: ".data ++ e }, .idle)
    | none => (m, .idle)
  | .windowSize =>
    if m.state = .viewMessages ∧ m.messages ≠ [] then
      ({ m with vpContent := some (renderSnap m) }, .idle)
    else (m, .idle)
  | .ctrlC => (m, .quit)
  | .keyEnterConversation conv =>
    if m.state = .viewConversations then
      ({ m with
          state := .viewMessages
          activeChatID := conv.chatID
          activeParticipants := conv.participants
          activeMsgCount := conv.messageCount
          messages := []
          oldestCursor := 0
          allLoaded := false
          loading := true }, .fetchMessagesCmd conv.chatID 0 false)
    else (m, .idle)
  | .keyOpenSearch =>
    if m.state = .viewConversations then
      ({ m with state := .viewSearch, searchFocused := true }, .widgetCmd)
    else (m, .idle)
  | .keyEscMessages =>
    if m.state = .viewMessages then
      ({ m with state := .viewConversations, messages := [], exportStatus := [] }, .idle)
    else (m, .idle)
  | .keyGotoTop => (m, .idle)
  | .keyGotoBottom => (m, .idle)
  | .keyExport =>
    if m.state = .viewMessages then
      if ¬m.exporting then
        ({ m with exporting := true, exportStatus := "Exporting...".data },
          .exportCmd m.activeChatID)
      else (m, .idle)
    else (m, .idle)
  | .keyOpenAttachments =>
    if m.state = .viewMessages then
      ({ m with state := .viewAttachments, attachmentTitle := .loadingAttachments },
        .fetchAttachmentsCmd m.activeChatID)
    else (m, .idle)
  | .keyOtherMessages atTopAfter =>
    if m.state = .viewMessages then
      if atTopAfter ∧ ¬m.allLoaded ∧ ¬m.loading then
        ({ m with loading := true },
          .fetchMessagesCmd m.activeChatID m.oldestCursor true)
      else (m, .widgetCmd)
    else (m, .idle)
  | .keySearchSubmit query =>
    if m.state = .viewSearch ∧ m.searchFocused then
      if trimSpace query = [] then (m, .idle)
      else
        ({ m with searchFocused := false, searching := true, searchTitle := .searchingTitle },
          .searchCmd (trimSpace query))
    else (m, .idle)
  | .keySearchEsc =>
    if m.state = .viewSearch then
      if m.searchFocused then
        ({ m with state := .viewConversations, searchFocused := false }, .idle)
      else ({ m with state := .viewConversations }, .idle)
    else (m, .idle)
  | .keySearchNew =>
    if m.state = .viewSearch ∧ ¬m.searchFocused then
      ({ m with searchFocused := true }, .widgetCmd)
    else (m, .idle)
  | .keySearchOpen hit =>
    if m.state = .viewSearch ∧ ¬m.searchFocused then
      let found := m.convItems.find? (fun c => c.chatID = hit.chatID)
      ({ m with
          state := .viewMessages
          activeChatID := hit.chatID
          activeParticipants := match found with | some conv => conv.participants | none => []
          activeMsgCount := match found with | some conv => conv.messageCount | none => 0
          messages := []
          oldestCursor := 0
          allLoaded := false
          loading := true }, .fetchMessagesCmd hit.chatID 0 false)
    else (m, .idle)
  | .keyAttachmentsEsc filtering =>
    if m.state = .viewAttachments then
      if filtering then (m, .idle)
      else ({ m with state := .viewMessages }, .idle)
    else (m, .idle)
  | .keyAttachmentOpen att =>
    if m.state = .viewAttachments then (m, .openAttachmentCmd att.filePath)
    else (m, .idle)

/-- Ghost history for claim C3: has a successful page shorter than the
requested size (`messagesPageSize`, the size every issued fetch requests)
been processed for the thread that is currently active, since that thread
was last activated?  Activation events reset it; a processed
`messagesLoaded` result sets it exactly when the code would accept the
page (no error, matching conversation id) and the page is short. -/
def ghostStep (m : TeaModel) (g : Bool) : TeaMsg → Bool
  | .messagesLoaded msgs chatID _ err =>
    if err = none ∧ chatID = m.activeChatID ∧ (msgs.length : Int) < messagesPageSize then true
    else g
  | .keyEnterConversation _ =>
    if m.state = .viewConversations then false else g
  | .keySearchOpen _ =>
    if m.state = .viewSearch ∧ ¬m.searchFocused then false else g
  | _ => g

/-- Reachable coordinator states, paired with the C3 ghost history: the
initial model, closed under processing any event. -/
inductive Reach : TeaModel → Bool → Prop
  | init : Reach initModel false
  | step (m : TeaModel) (g : Bool) (e : TeaMsg) :
      Reach m g → Reach (update m e).1 (ghostStep m g e)

/-! ## Claim C10: non-positive page size defaults to 200 -/

/-- Claim C10: for every conversation id and cursor, calling
`Store.FetchMessages` with a non-positive `pageSize` is the same call as
with the fixed default page size 200 (`messagesPageSize`): the
non-positive size is silently replaced, not an error or an empty
result. -/
theorem FetchMessages_default_pageSize (s : Store) (chatID cursor k : Int) (hk : k ≤ 0) :
    s.FetchMessages chatID cursor k = s.FetchMessages chatID cursor 200 ∧
    messagesPageSize = 200 := by
  constructor
  · simp only [Store.FetchMessages, messagesPageSize, if_pos hk]
    norm_num
  · rfl

/-- Witness for C10 at the concrete call `pageSize = 0` on a one-row
store. -/
theorem FetchMessages_default_pageSize_witness :
    ((0 : Int) ≤ 0) ∧
      ((Store.mk [⟨1, 1, [], 5, true, [], [], []⟩]).FetchMessages 1 0 0 =
        (Store.mk [⟨1, 1, [], 5, true, [], [], []⟩]).FetchMessages 1 0 200 ∧
      messagesPageSize = 200) :=
  ⟨by decide,
    FetchMessages_default_pageSize (Store.mk [⟨1, 1, [], 5, true, [], [], []⟩]) 1 0 0 (by decide)⟩

/-! ## Claim C5: time decoder -/

/-- Claim C5: `appleNanosToTime 0` is the unset sentinel (the Go zero
time, not the Unix epoch), and for every nonzero `nanos` the result is the
absolute time `time.Unix(nanos / 1e9 + appleEpochOffset, nanos % 1e9)`
(Go's truncated division), i.e. the instant `nanos + appleEpochOffset·1e9`
nanoseconds after the Unix epoch. -/
theorem appleNanosToTime_spec :
    appleNanosToTime 0 = goZeroTime ∧
    goZeroTime ≠ timeUnix 0 0 ∧
    (∀ n : Int, n ≠ 0 →
      appleNanosToTime n =
        timeUnix (n.tdiv 1000000000 + appleEpochOffset) (n.tmod 1000000000) ∧
      (appleNanosToTime n).unixNanos = n + appleEpochOffset * 1000000000) := by
  refine ⟨rfl, by decide, fun n hn => ⟨by rw [appleNanosToTime, if_neg hn], ?_⟩⟩
  have h := Int.tdiv_add_tmod n 1000000000
  simp only [appleNanosToTime, if_neg hn, timeUnix, appleEpochOffset]
  linarith

/-- Witness for C5 at `nanos = 1`. -/
theorem appleNanosToTime_spec_witness :
    ((1 : Int) ≠ 0) ∧
      (appleNanosToTime 1 =
        timeUnix ((1 : Int).tdiv 1000000000 + appleEpochOffset) ((1 : Int).tmod 1000000000) ∧
      (appleNanosToTime 1).unixNanos = 1 + appleEpochOffset * 1000000000) :=
  ⟨by decide, appleNanosToTime_spec.2.2 1 (by decide)⟩

/-! ## Claim C9: attachment results are never treated as stale -/

/-- Claim C9: a successful attachment-list result replaces the attachment
list contents in every coordinator state — the `attachmentsLoadedMsg` type
carries no conversation id (see its constructor), so unlike message pages
the result is applied even if the user has navigated to a different
conversation (last conjunct: the outcome is the same for every active
chat id). -/
theorem attachments_never_stale (m : TeaModel) (atts : List ChatAttachment) :
    ((update m (.attachmentsLoaded atts none)).1.attachmentItems = atts) ∧
    ((update m (.attachmentsLoaded atts none)).1.attachmentTitle = .attachmentsCount atts.length) ∧
    (∀ c : Int,
      (update { m with activeChatID := c } (.attachmentsLoaded atts none)).1.attachmentItems = atts) :=
  ⟨rfl, rfl, fun _ => rfl⟩

/-! ## Claim C2: stale message pages are discarded -/

/-- Claim C2: processing a completed page-fetch result whose conversation
id differs from the active thread's id leaves the message window, the
cursor, the exhausted flag and the rendered viewport content unchanged,
for every state, payload and error value — completion order is irrelevant
because the guard looks only at the carried id. -/
theorem stale_page_discarded (m : TeaModel) (msgs : List Message) (chatID : Int)
    (prepend : Bool) (err : Option GoErr) (h : chatID ≠ m.activeChatID) :
    ((update m (.messagesLoaded msgs chatID prepend err)).1.messages = m.messages) ∧
    ((update m (.messagesLoaded msgs chatID prepend err)).1.oldestCursor = m.oldestCursor) ∧
    ((update m (.messagesLoaded msgs chatID prepend err)).1.allLoaded = m.allLoaded) ∧
    ((update m (.messagesLoaded msgs chatID prepend err)).1.vpContent = m.vpContent) := by
  cases err with
  | some e => exact ⟨rfl, rfl, rfl, rfl⟩
  | none =>
    simp only [update, if_pos h]
    exact ⟨trivial, trivial, trivial, trivial⟩

/-- Witness for C2: a result for conversation 6 arriving while
conversation 0 (the initial model's active id) is displayed. -/
theorem stale_page_discarded_witness :
    ((6 : Int) ≠ initModel.activeChatID) ∧
      (((update initModel (.messagesLoaded [] 6 false none)).1.messages = initModel.messages) ∧
      ((update initModel (.messagesLoaded [] 6 false none)).1.oldestCursor = initModel.oldestCursor) ∧
      ((update initModel (.messagesLoaded [] 6 false none)).1.allLoaded = initModel.allLoaded) ∧
      ((update initModel (.messagesLoaded [] 6 false none)).1.vpContent = initModel.vpContent)) :=
  ⟨by decide, stale_page_discarded initModel [] 6 false none (by decide)⟩

/-! ## Claim C4: failure handling of asynchronous results

The code (`model.go` lines 354-357) returns from the `messagesLoadedMsg`
error branch before `m.loading = false` on line 362 runs, so a failed page
fetch records the error but leaves the in-flight flag set; the search path
clears its flag (`m.searching = false` precedes the error check) and the
attachment path has no flag.  The claim's "clears the in-flight loading
flag" therefore fails on the page-fetch path. -/

/-- Concrete state for the C4 counterexample: message view with a
backward fetch in flight. -/
def loadingModel : TeaModel :=
  { initModel with state := .viewMessages, activeChatID := 1, loading := true }

/-- Counterexample to C4 as stated: a failed page fetch (non-nil error)
does not clear the in-flight loading flag — in `loadingModel` the flag is
set, and after processing the error result it is still not `false`. -/
theorem fetch_error_keeps_loading_flag :
    loadingModel.loading = true ∧
    ¬((update loadingModel (.messagesLoaded [] 1 true (some "disk I-O error".data))).1.loading
        = false) := by
  decide

/-- Amended C4: every failed page-fetch, search or attachment-list result
leaves the message window and the other view buffers unchanged and records
the error as an inline status without terminating the session (no quit
command); the search path additionally clears its in-flight `searching`
flag, but the page-fetch path leaves `loading` exactly as it was (it is
not cleared), and the attachment path has no in-flight flag. -/
theorem async_error_handling :
    (∀ (m : TeaModel) (msgs : List Message) (chatID : Int) (prepend : Bool) (e : GoErr),
      ((update m (.messagesLoaded msgs chatID prepend (some e))).1.messages = m.messages) ∧
      ((update m (.messagesLoaded msgs chatID prepend (some e))).1.vpContent = m.vpContent) ∧
      ((update m (.messagesLoaded msgs chatID prepend (some e))).1.searchItems = m.searchItems) ∧
      ((update m (.messagesLoaded msgs chatID prepend (some e))).1.attachmentItems
          = m.attachmentItems) ∧
      ((update m (.messagesLoaded msgs chatID prepend (some e))).1.err = some e) ∧
      ((update m (.messagesLoaded msgs chatID prepend (some e))).1.loading = m.loading) ∧
      ((update m (.messagesLoaded msgs chatID prepend (some e))).2 ≠ .quit)) ∧
    (∀ (m : TeaModel) (atts : List ChatAttachment) (e : GoErr),
      ((update m (.attachmentsLoaded atts (some e))).1.attachmentItems = m.attachmentItems) ∧
      ((update m (.attachmentsLoaded atts (some e))).1.messages = m.messages) ∧
      ((update m (.attachmentsLoaded atts (some e))).1.vpContent = m.vpContent) ∧
      ((update m (.attachmentsLoaded atts (some e))).1.err = some e) ∧
      ((update m (.attachmentsLoaded atts (some e))).2 ≠ .quit)) ∧
    (∀ (m : TeaModel) (results : List SearchResult) (term : List Char) (e : GoErr),
      ((update m (.searchResults results term (some e))).1.searchItems = m.searchItems) ∧
      ((update m (.searchResults results term (some e))).1.messages = m.messages) ∧
      ((update m (.searchResults results term (some e))).1.vpContent = m.vpContent) ∧
      ((update m (.searchResults results term (some e))).1.searching = false) ∧
      ((update m (.searchResults results term (some e))).1.err = some e) ∧
      ((update m (.searchResults results term (some e))).2 ≠ .quit)) := by
  refine ⟨fun m msgs chatID prepend e => ?_, fun m atts e => ?_, fun m results term e => ?_⟩
  · exact ⟨rfl, rfl, rfl, rfl, rfl, rfl, by simp [update]⟩
  · exact ⟨rfl, rfl, rfl, rfl, by simp [update]⟩
  · exact ⟨rfl, rfl, rfl, rfl, rfl, by simp [update]⟩

/-! ## Claim C8: byte-size formatting

`formatBytes` (`db.go` lines 58-69) prints `%.1f` only for the scaled
KB/MB/GB branches; the default branch prints the byte count with `%d`,
without a decimal place, so the claim's "renders the value with one
decimal place … choosing B for b below 1024" fails at e.g. 512. -/

/-- Rendering rule exactly as claim C8 words it: one decimal place in the
largest unit whose threshold the value meets, including the plain-bytes
unit. -/
def formatBytesClaimSpec (b : Int) : List Char :=
  if 1073741824 ≤ b then fmtOneDec b.toNat 30 ++ " GB".data
  else if 1048576 ≤ b then fmtOneDec b.toNat 20 ++ " MB".data
  else if 1024 ≤ b then fmtOneDec b.toNat 10 ++ " KB".data
  else fmtOneDec b.toNat 0 ++ " B".data

/-- Counterexample to C8 as stated: at 512 bytes the code prints `512 B`
(no decimal place) while the claimed rendering is `512.0 B`. -/
theorem formatBytes_B_has_no_decimal :
    formatBytes 512 = "512 B".data ∧
    formatBytesClaimSpec 512 = "512.0 B".data ∧
    formatBytes 512 ≠ formatBytesClaimSpec 512 := by
  decide

/-- Units table as the spec describes the byte formatter: binary
(1024-based) thresholds with the largest matching unit chosen first; a
value below every threshold is rendered as an integer byte count. -/
def byteUnitsTable : List (List Char × Int × Nat) :=
  [(" GB".data, 1073741824, 30), (" MB".data, 1048576, 20), (" KB".data, 1024, 10)]

/-- Amended-C8 rendering, written from the spec's wording over the unit
table: find the largest unit whose threshold the value meets and print the
scaled value with one decimal place; below 1024 print the integer byte
count (no decimal). -/
def formatBytesAmendedSpec (b : Int) : List Char :=
  match byteUnitsTable.find? (fun u => u.2.1 ≤ b) with
  | some u => fmtOneDec b.toNat u.2.2 ++ u.1
  | none => intToStr b ++ " B".data

/-- Amended C8: `formatBytes` uses binary 1024-based units and renders the
value in the largest unit whose threshold it meets — with one decimal
place for KB (≥ 1024), MB (≥ 1024²) and GB (≥ 1024³), and as a plain
integer for B below 1024 — as captured by the table-driven spec
rendering. -/
theorem formatBytes_units (b : Int) :
    formatBytes b = formatBytesAmendedSpec b := by
  unfold formatBytes formatBytesAmendedSpec byteUnitsTable
  by_cases h1 : (1073741824 : Int) ≤ b <;>
    by_cases h2 : (1048576 : Int) ≤ b <;>
      by_cases h3 : (1024 : Int) ≤ b <;>
        simp [List.find?, h1, h2, h3]

/-! ## Claim C7: CSV field escaping -/

/-- Claim C7: `csvEscape` leaves a field unchanged iff it contains no
comma, double quote or line-break character, and otherwise wraps it in
double quotes with every internal double quote doubled (`doubleQuotes` is
characterized independently as a per-character expansion), matching the
three cited examples. -/
theorem csvEscape_spec :
    (∀ s : List Char, (∀ c ∈ s, ¬(c = ',' ∨ c = '"' ∨ c = '\n' ∨ c = '\r')) →
      csvEscape s = s) ∧
    (∀ s : List Char, (∃ c ∈ s, c = ',' ∨ c = '"' ∨ c = '\n' ∨ c = '\r') →
      csvEscape s = '"' :: doubleQuotes s ++ ['"']) ∧
    (∀ s : List Char,
      doubleQuotes s = s.flatMap fun c => if c = '"' then ['"', '"'] else [c]) ∧
    (csvEscape "hello, world".data = "\"hello, world\"".data) ∧
    (csvEscape "say \"hi\"".data = "\"say \"\"hi\"\"\"".data) ∧
    (csvEscape "hello".data = "hello".data) := by
  refine ⟨fun s h => ?_, fun s h => ?_, fun s => ?_, by decide, by decide, by decide⟩
  · have hfalse : goContainsAny s [',', '"', '\n', '\r'] = false := by
      simp only [goContainsAny, List.any_eq_false]
      intro c hc
      simpa using h c hc
    simp [csvEscape, hfalse]
  · have htrue : goContainsAny s [',', '"', '\n', '\r'] = true := by
      obtain ⟨c, hc, hor⟩ := h
      simp only [goContainsAny, List.any_eq_true]
      exact ⟨c, hc, by simpa using hor⟩
    simp [csvEscape, htrue]
  · induction s with
    | nil => rfl
    | cons c r ih => by_cases hc : c = '"' <;> simp [doubleQuotes, ih, hc]

/-- Witness for C7: the no-special-character case at `hello` and the
escaping case at `a,b`. -/
theorem csvEscape_spec_witness :
    ((∀ c ∈ "hello".data, ¬(c = ',' ∨ c = '"' ∨ c = '\n' ∨ c = '\r')) ∧
      csvEscape "hello".data = "hello".data) ∧
    ((∃ c ∈ "a,b".data, c = ',' ∨ c = '"' ∨ c = '\n' ∨ c = '\r') ∧
      csvEscape "a,b".data = '"' :: doubleQuotes "a,b".data ++ ['"']) :=
  ⟨⟨by decide, csvEscape_spec.1 "hello".data (by decide)⟩,
    ⟨by decide, csvEscape_spec.2.1 "a,b".data (by decide)⟩⟩

/-! ## Claim C6: attachment decoding -/

/-- Inverse direction of the outer split: `GROUP_CONCAT(entries, ";;")`. -/
def joinSep2 (a b : Char) : List (List Char) → List Char
  | [] => []
  | [e] => e
  | e :: rest => e ++ a :: b :: joinSep2 a b rest

/-- A string without the separator character does not get split. -/
theorem split2_no_sep (a b : Char) : ∀ s : List Char, a ∉ s → split2 a b s = [s]
  | [], _ => rfl
  | [_], _ => rfl
  | c :: d :: rest, h => by
    have hc : ¬(c = a ∧ d = b) := fun hh => h (hh.1 ▸ List.mem_cons_self c (d :: rest))
    have ht := split2_no_sep a b (d :: rest) (fun hm => h (List.mem_cons_of_mem c hm))
    simp only [split2, if_neg hc, ht]

/-- Splitting after a separator-free piece peels that piece off. -/
theorem split2_append_sep (a b : Char) :
    ∀ (e t : List Char), a ∉ e → split2 a b (e ++ a :: b :: t) = e :: split2 a b t
  | [], t, _ => by
    simp [split2]
  | c :: e, t, h => by
    have hc : c ≠ a := fun hh => h (hh ▸ List.mem_cons_self c e)
    have he : a ∉ e := fun hm => h (List.mem_cons_of_mem c hm)
    have ht := split2_append_sep a b e t he
    rcases hE : e ++ a :: b :: t with _ | ⟨d, rest⟩
    · exact absurd hE (by simp)
    · rw [hE] at ht
      have hcond : ¬(c = a ∧ d = b) := fun hand => hc hand.1
      simp only [List.cons_append, hE, split2, ht]
      rw [if_neg hcond]

/-- Round trip for the outer separator: joining entries that contain no
separator character with `";;"` and splitting again recovers the
entries. -/
theorem split2_joinSep (a b : Char) :
    ∀ entries : List (List Char), entries ≠ [] → (∀ e ∈ entries, a ∉ e) →
      split2 a b (joinSep2 a b entries) = entries
  | [], h, _ => absurd rfl h
  | [e], _, h => by
    simp only [joinSep2]
    exact split2_no_sep a b e (h e (List.mem_singleton_self e))
  | e1 :: e2 :: rest, _, h => by
    have ht := split2_joinSep a b (e2 :: rest) (by simp)
      (fun e he => h e (List.mem_cons_of_mem e1 he))
    simp only [joinSep2] at ht ⊢
    rw [split2_append_sep a b e1 (joinSep2 a b (e2 :: rest)) (h e1 (by simp)), ht]

/-- The bounded split produces at most `n + 1` pieces. -/
theorem split2N_length (a b : Char) : ∀ (n : Nat) (s : List Char),
    (split2N a b n s).length ≤ n + 1
  | _, [] => by simp [split2N]
  | 0, _ :: _ => by simp [split2N]
  | _ + 1, [_] => by simp [split2N]
  | n + 1, c :: d :: rest => by
    simp only [split2N]
    split
    · have := split2N_length a b n rest
      simp only [List.length_cons]
      omega
    · rcases hE : split2N a b (n + 1) (d :: rest) with _ | ⟨t, ts⟩
      · simp
      · have := split2N_length a b (n + 1) (d :: rest)
        rw [hE] at this
        simp only [List.length_cons] at this ⊢
        omega

/-- Claim C6: `parseAttachments` decodes the three cited examples exactly
(one `photo` record; no records; `photo` then `video` in source order),
and in general: empty input is no records, otherwise the input is split on
the outer separator `";;"` and each entry is decoded in order with
fully-empty entries dropped (`filterMap parseEntry`); each entry is split
on `"||"` into at most 3 fields; and the outer split inverts the
`GROUP_CONCAT` join for separator-free entries. -/
theorem parseAttachments_spec :
    (parseAttachments "image/jpeg||IMG_001.jpg||2048576".data =
      [⟨"photo".data, "IMG_001.jpg".data, 2048576⟩]) ∧
    (parseAttachments "".data = []) ∧
    (parseAttachments "image/heic||a.heic||1000;;video/quicktime||b.mov||5000".data =
      [⟨"photo".data, "a.heic".data, 1000⟩, ⟨"video".data, "b.mov".data, 5000⟩]) ∧
    (∀ raw : List Char, raw ≠ [] →
      parseAttachments raw = (split2 ';' ';' raw).filterMap parseEntry) ∧
    (∀ entry : List Char, (split2N '|' '|' 2 entry).length ≤ 3) ∧
    (∀ entries : List (List Char), entries ≠ [] → (∀ e ∈ entries, ';' ∉ e) →
      split2 ';' ';' (joinSep2 ';' ';' entries) = entries) := by
  refine ⟨by decide, by decide, by decide, fun raw h => by simp [parseAttachments, h],
    fun entry => split2N_length '|' '|' 2 entry,
    fun entries h1 h2 => split2_joinSep ';' ';' entries h1 h2⟩

/-- Witness for C6's conditional conjuncts: decomposition at the one-entry
input `x` and the join round trip at two concrete entries. -/
theorem parseAttachments_spec_witness :
    (("x".data : List Char) ≠ [] ∧
      parseAttachments "x".data = (split2 ';' ';' "x".data).filterMap parseEntry) ∧
    ((["ab".data, "cd".data] : List (List Char)) ≠ [] ∧
      (∀ e ∈ (["ab".data, "cd".data] : List (List Char)), ';' ∉ e) ∧
      split2 ';' ';' (joinSep2 ';' ';' ["ab".data, "cd".data]) = ["ab".data, "cd".data]) :=
  ⟨⟨by decide, parseAttachments_spec.2.2.2.1 "x".data (by decide)⟩,
    ⟨by decide, by decide,
      parseAttachments_spec.2.2.2.2.2 ["ab".data, "cd".data] (by decide) (by decide)⟩⟩

/-! ## Claim C3: exhaustion flag -/

/-- The candidate row set of one `FetchMessages` query: the conversation's
rows, bounded by the cursor unless it is the sentinel `0`. -/
def poolFor (db : List MsgRow) (chatID cursor : Int) : List MsgRow :=
  if cursor = 0 then chatRows db chatID
  else (chatRows db chatID).filter (fun r => r.rowid < cursor)

/-- Unfolding equation for `Store.FetchMessages` in terms of `poolFor`. -/
theorem fetchMessages_eq (s : Store) (chatID cursor k : Int) :
    s.FetchMessages chatID cursor k =
      (((poolFor s.db chatID cursor).insertionSort dateDescLe).take
        ((if k ≤ 0 then messagesPageSize else k).toNat)).reverse.map scanRow := rfl

/-- Helper for C3: the `allLoaded` flag of every reachable coordinator
state equals the ghost history "a successful page shorter than the
requested size has been processed for the currently active thread since
its activation". -/
theorem allLoaded_eq_ghost (m : TeaModel) (g : Bool) (h : Reach m g) : m.allLoaded = g := by
  induction h with
  | init => rfl
  | step m g e _ ih =>
    cases e with
    | conversationsLoaded convs err =>
      cases err <;> simpa [update, ghostStep] using ih
    | messagesLoaded msgs chatID prepend err =>
      cases err with
      | some e => simpa [update, ghostStep] using ih
      | none =>
        by_cases hid : chatID = m.activeChatID
        · by_cases hemp : msgs = []
          · subst hemp
            simp [update, ghostStep, hid, messagesPageSize]
          · by_cases hshort : (msgs.length : Int) < messagesPageSize
            · simp [update, ghostStep, hid, hemp, hshort]
            · simpa [update, ghostStep, hid, hemp, hshort] using ih
        · simpa [update, ghostStep, hid] using ih
    | searchResults results term err =>
      cases err <;> simpa [update, ghostStep] using ih
    | exportDone path err =>
      cases err <;> simpa [update, ghostStep] using ih
    | attachmentsLoaded atts err =>
      cases err <;> simpa [update, ghostStep] using ih
    | attachmentOpened err =>
      cases err <;> simpa [update, ghostStep] using ih
    | windowSize =>
      by_cases hc : m.state = .viewMessages ∧ m.messages ≠ [] <;>
        simpa [update, ghostStep, hc] using ih
    | ctrlC => simpa [update, ghostStep] using ih
    | keyEnterConversation conv =>
      by_cases hst : m.state = .viewConversations <;>
        simp [update, ghostStep, hst, ih]
    | keyOpenSearch =>
      by_cases hst : m.state = .viewConversations <;>
        simpa [update, ghostStep, hst] using ih
    | keyEscMessages =>
      by_cases hst : m.state = .viewMessages <;>
        simpa [update, ghostStep, hst] using ih
    | keyGotoTop => simpa [update, ghostStep] using ih
    | keyGotoBottom => simpa [update, ghostStep] using ih
    | keyExport =>
      by_cases hst : m.state = .viewMessages <;>
        by_cases hex : m.exporting <;>
          simpa [update, ghostStep, hst, hex] using ih
    | keyOpenAttachments =>
      by_cases hst : m.state = .viewMessages <;>
        simpa [update, ghostStep, hst] using ih
    | keyOtherMessages atTopAfter =>
      by_cases hst : m.state = .viewMessages <;>
        simpa [update, ghostStep, hst, apply_ite] using ih
    | keySearchSubmit query =>
      by_cases hst : m.state = .viewSearch <;>
        by_cases hf : m.searchFocused <;>
          by_cases hq : trimSpace query = [] <;>
            simpa [update, ghostStep, hst, hf, hq] using ih
    | keySearchEsc =>
      by_cases hst : m.state = .viewSearch <;>
        by_cases hf : m.searchFocused <;>
          simpa [update, ghostStep, hst, hf] using ih
    | keySearchNew =>
      by_cases hst : m.state = .viewSearch <;>
        by_cases hf : m.searchFocused <;>
          simpa [update, ghostStep, hst, hf] using ih
    | keySearchOpen hit =>
      by_cases hst : m.state = .viewSearch <;>
        by_cases hf : m.searchFocused <;>
          simp [update, ghostStep, hst, hf, ih]
    | keyAttachmentsEsc filtering =>
      by_cases hst : m.state = .viewAttachments <;>
        cases filtering <;>
          simpa [update, ghostStep, hst] using ih
    | keyAttachmentOpen att =>
      by_cases hst : m.state = .viewAttachments <;>
        simpa [update, ghostStep, hst] using ih

/-- Claim C3: (1) in every reachable coordinator state the exhausted flag
`allLoaded` is set iff a successful page shorter than the requested size
(`messagesPageSize`; an empty page included) has been processed for the
active thread since its activation (the ghost history of `Reach`); (2)
once it is set, the scroll event issues no backward fetch; (3) a short
page is never early: whenever a page comes back shorter than a positive
requested size, every row of the conversation the query's cursor admits is
already in that page, so no older message remains unloaded. -/
theorem exhausted_iff_short_page :
    (∀ (m : TeaModel) (g : Bool), Reach m g → m.allLoaded = g) ∧
    (∀ (m : TeaModel) (b : Bool), m.allLoaded = true →
      ∀ (cid cur : Int) (p : Bool),
        (update m (.keyOtherMessages b)).2 ≠ .fetchMessagesCmd cid cur p) ∧
    (∀ (s : Store) (chatID cursor k : Int), 0 < k →
      (s.FetchMessages chatID cursor k).length < k.toNat →
      ∀ r ∈ s.db, r.chatId = chatID → (cursor = 0 ∨ r.rowid < cursor) →
        scanRow r ∈ s.FetchMessages chatID cursor k) := by
  refine ⟨allLoaded_eq_ghost, fun m b hall cid cur p => ?_, ?_⟩
  · by_cases hst : m.state = .viewMessages <;> simp [update, hst, hall]
  · intro s chatID cursor k hk hlen r hr hchat hcur
    have hk' : ¬(k ≤ 0) := by omega
    rw [fetchMessages_eq, if_neg hk'] at hlen ⊢
    have hSlen : ((poolFor s.db chatID cursor).insertionSort dateDescLe).length < k.toNat := by
      simp only [List.length_map, List.length_reverse, List.length_take] at hlen
      omega
    rw [List.take_of_length_le (le_of_lt hSlen)]
    have hrP : r ∈ poolFor s.db chatID cursor := by
      by_cases h0 : cursor = 0
      · simp [poolFor, h0, chatRows, List.mem_filter, hr, hchat]
      · rcases hcur with h0' | hlt
        · exact absurd h0' h0
        · simp [poolFor, h0, chatRows, List.mem_filter, hr, hchat, hlt]
    have hrS : r ∈ (poolFor s.db chatID cursor).insertionSort dateDescLe :=
      ((List.perm_insertionSort dateDescLe (poolFor s.db chatID cursor)).mem_iff).mpr hrP
    simp only [List.mem_map, List.mem_reverse]
    exact ⟨r, hrS, rfl⟩

/-- Concrete exhausted message-view state for the C3 witness. -/
def loadedOneModel : TeaModel :=
  { initModel with state := .viewMessages, activeChatID := 1, allLoaded := true }

/-- Witness for C3: part 1 at the initial state, part 2 at an exhausted
message-view state, part 3 at a one-row store queried with page size 5. -/
theorem exhausted_iff_short_page_witness :
    (Reach initModel false → initModel.allLoaded = false) ∧
    (loadedOneModel.allLoaded = true ∧
      (update loadedOneModel (.keyOtherMessages true)).2 ≠ .fetchMessagesCmd 1 0 true) ∧
    ((0 : Int) < 5 ∧
      ((Store.mk [⟨1, 1, [], 5, true, [], [], []⟩]).FetchMessages 1 0 5).length < (5 : Int).toNat ∧
      scanRow ⟨1, 1, [], 5, true, [], [], []⟩ ∈
        (Store.mk [⟨1, 1, [], 5, true, [], [], []⟩]).FetchMessages 1 0 5) :=
  ⟨fun h => exhausted_iff_short_page.1 initModel false h,
    ⟨rfl, exhausted_iff_short_page.2.1 loadedOneModel true rfl 1 0 true⟩,
    ⟨by decide, by decide,
      exhausted_iff_short_page.2.2 (Store.mk [⟨1, 1, [], 5, true, [], [], []⟩]) 1 0 5
        (by decide) (by decide) ⟨1, 1, [], 5, true, [], [], []⟩ (by decide) (by decide)
        (Or.inl rfl)⟩⟩

/-! ## Claim C1: pagination reproduces the full history

`FetchMessages` pages by `ROWID < cursor` but orders by `m.date`; the
spec's data model (§3) assumes message ids are chronologically monotonic
within a conversation, and §9 flags that assumption as load-bearing for
pagination.  `RowsOrdered` is that data-model invariant: distinct ids,
ordered exactly as the timestamps. -/

/-- Strict "larger rowid first" order (how a date-descending page is laid
out under the data-model invariant). -/
def rowidGtRel (a b : MsgRow) : Prop := b.rowid < a.rowid

/-- Strict "smaller rowid first" order. -/
def rowidLtRel (a b : MsgRow) : Prop := a.rowid < b.rowid

instance : IsAntisymm MsgRow rowidGtRel :=
  ⟨fun _ _ h1 h2 => absurd (lt_trans h1 h2) (lt_irrefl _)⟩

instance : IsAntisymm MsgRow rowidLtRel :=
  ⟨fun _ _ h1 h2 => absurd (lt_trans h1 h2) (lt_irrefl _)⟩

/-- Data-model invariant of spec §3 for a row set: message ids are
pairwise distinct and ordered exactly as the timestamps. -/
def RowsOrdered (l : List MsgRow) : Prop :=
  l.Pairwise (fun a b => a.rowid ≠ b.rowid) ∧
    ∀ a ∈ l, ∀ b ∈ l, (a.rowid < b.rowid ↔ a.dateNanos < b.dateNanos)

/-- The invariant restricts to any filtered subset. -/
theorem rowsOrdered_filter (l : List MsgRow) (p : MsgRow → Bool) (h : RowsOrdered l) :
    RowsOrdered (l.filter p) :=
  ⟨h.1.filter p, fun a ha b hb =>
    h.2 a (List.mem_of_mem_filter ha) b (List.mem_of_mem_filter hb)⟩

/-- Under the invariant, a date-descending sort is strictly descending by
rowid. -/
theorem sortD_strict (l : List MsgRow) (h : RowsOrdered l) :
    (l.insertionSort dateDescLe).Pairwise rowidGtRel := by
  have hperm := List.perm_insertionSort dateDescLe l
  have hs : (l.insertionSort dateDescLe).Pairwise dateDescLe :=
    List.sorted_insertionSort dateDescLe l
  have hnd : (l.insertionSort dateDescLe).Pairwise (fun a b => a.rowid ≠ b.rowid) :=
    (hperm.pairwise_iff fun hxy => Ne.symm hxy).mpr h.1
  refine List.Pairwise.imp_of_mem ?_ (hs.and hnd)
  intro a b ha hb hab
  have ha' := hperm.mem_iff.mp ha
  have hb' := hperm.mem_iff.mp hb
  rcases lt_trichotomy a.rowid b.rowid with hlt | heq | hgt
  · exact absurd ((h.2 a ha' b hb').mp hlt) (not_lt.mpr hab.1)
  · exact absurd heq hab.2
  · exact hgt

/-- Under the invariant, a date-ascending sort is strictly ascending by
rowid. -/
theorem sortA_strict (l : List MsgRow) (h : RowsOrdered l) :
    (l.insertionSort dateAscLe).Pairwise rowidLtRel := by
  have hperm := List.perm_insertionSort dateAscLe l
  have hs : (l.insertionSort dateAscLe).Pairwise dateAscLe :=
    List.sorted_insertionSort dateAscLe l
  have hnd : (l.insertionSort dateAscLe).Pairwise (fun a b => a.rowid ≠ b.rowid) :=
    (hperm.pairwise_iff fun hxy => Ne.symm hxy).mpr h.1
  refine List.Pairwise.imp_of_mem ?_ (hs.and hnd)
  intro a b ha hb hab
  have ha' := hperm.mem_iff.mp ha
  have hb' := hperm.mem_iff.mp hb
  rcases lt_trichotomy a.rowid b.rowid with hlt | heq | hgt
  · exact hlt
  · exact absurd heq hab.2
  · exact absurd ((h.2 b hb' a ha').mp hgt) (not_lt.mpr hab.1)

/-- Two permuted strictly-rowid-descending lists are equal. -/
theorem strictD_eq_of_perm (l1 l2 : List MsgRow) (hperm : l1.Perm l2)
    (h1 : l1.Pairwise rowidGtRel) (h2 : l2.Pairwise rowidGtRel) : l1 = l2 :=
  List.eq_of_perm_of_sorted hperm h1 h2

/-- Two permuted strictly-rowid-ascending lists are equal. -/
theorem strictA_eq_of_perm (l1 l2 : List MsgRow) (hperm : l1.Perm l2)
    (h1 : l1.Pairwise rowidLtRel) (h2 : l2.Pairwise rowidLtRel) : l1 = l2 :=
  List.eq_of_perm_of_sorted hperm h1 h2

/-- Under the invariant, sorting commutes with filtering. -/
theorem sortD_filter (l : List MsgRow) (p : MsgRow → Bool) (h : RowsOrdered l) :
    (l.filter p).insertionSort dateDescLe = (l.insertionSort dateDescLe).filter p := by
  refine strictD_eq_of_perm _ _ ?_ (sortD_strict _ (rowsOrdered_filter l p h))
    ((sortD_strict l h).filter p)
  exact (List.perm_insertionSort _ _).trans ((List.perm_insertionSort dateDescLe l).filter p).symm

/-- Under the invariant, the ascending sort is the reverse of the
descending sort. -/
theorem sortA_eq_reverse_sortD (l : List MsgRow) (h : RowsOrdered l) :
    l.insertionSort dateAscLe = (l.insertionSort dateDescLe).reverse := by
  refine strictA_eq_of_perm _ _ ?_ (sortA_strict l h) ?_
  · exact (List.perm_insertionSort _ _).trans
      (((l.insertionSort dateDescLe).reverse_perm).trans (List.perm_insertionSort dateDescLe l)).symm
  · exact List.pairwise_reverse.mpr (sortD_strict l h)

/-- Folding `min` over rowids at least the seed returns the seed. -/
theorem foldl_min_of_le (a : Int) : ∀ ms : List Message, (∀ x ∈ ms, a ≤ x.rowid) →
    ms.foldl (fun acc x => min acc x.rowid) a = a
  | [], _ => rfl
  | x :: ms, h => by
    rw [List.foldl_cons]
    simp only [min_eq_left (h x (List.mem_cons_self x ms))]
    exact foldl_min_of_le a ms fun y hy => h y (List.mem_cons_of_mem x hy)

/-- Main C1 helper: under the data-model invariant (positive, distinct,
chronologically ordered ids), the pagination chain from any cursor with
enough fuel returns exactly the cursor's candidate set in ascending date
order. -/
theorem chain_eq_sorted (s : Store) (chatID k : Int) (hk : 1 ≤ k)
    (hpos : ∀ r ∈ chatRows s.db chatID, 0 < r.rowid)
    (ho : RowsOrdered (chatRows s.db chatID)) :
    ∀ (fuel : Nat) (cursor : Int), (poolFor s.db chatID cursor).length < fuel →
      fetchChain s chatID k fuel cursor =
        ((poolFor s.db chatID cursor).insertionSort dateAscLe).map scanRow := by
  have hk' : ¬(k ≤ 0) := by omega
  intro fuel
  induction fuel with
  | zero => exact fun cursor h => absurd h (Nat.not_lt_zero _)
  | succ fuel ih =>
    intro cursor hlen
    have hoP : RowsOrdered (poolFor s.db chatID cursor) := by
      unfold poolFor; split
      · exact ho
      · exact rowsOrdered_filter _ _ ho
    have hposP : ∀ r ∈ poolFor s.db chatID cursor, 0 < r.rowid := by
      intro r hr
      apply hpos
      revert hr; unfold poolFor; split
      · exact id
      · exact List.mem_of_mem_filter
    by_cases hPnil : poolFor s.db chatID cursor = []
    · have hpage : s.FetchMessages chatID cursor k = [] := by
        rw [fetchMessages_eq, hPnil]; simp
      simp only [fetchChain, hpage, if_pos]
      rw [hPnil]; rfl
    · set P := poolFor s.db chatID cursor with hPdef
      set S := P.insertionSort dateDescLe with hSdef
      set T := S.take k.toNat with hTdef
      set D := S.drop k.toNat with hDdef
      have hSperm : S.Perm P := by rw [hSdef]; exact List.perm_insertionSort _ _
      have hSstrict : S.Pairwise rowidGtRel := by rw [hSdef]; exact sortD_strict P hoP
      have hPlen : 0 < P.length := List.length_pos.mpr hPnil
      have hSlen : S.length = P.length := hSperm.length_eq
      have hkn : 1 ≤ k.toNat := by omega
      have hTD : T ++ D = S := by rw [hTdef, hDdef]; exact List.take_append_drop _ _
      have hTlen : T.length = min k.toNat S.length := by rw [hTdef]; exact List.length_take _ _
      have hTnil : T ≠ [] := by
        intro hh
        rw [hh] at hTlen
        simp only [List.length_nil] at hTlen
        omega
      have hpage : s.FetchMessages chatID cursor k = T.reverse.map scanRow := by
        rw [fetchMessages_eq, if_neg hk', ← hPdef, ← hSdef, ← hTdef]
      rcases hrevE : T.reverse with _ | ⟨p0, prest⟩
      · exact absurd (List.reverse_eq_nil_iff.mp hrevE) hTnil
      · have hTrev : (T.reverse).Pairwise rowidLtRel :=
          List.pairwise_reverse.mpr (hSstrict.sublist (by rw [hTdef]; exact List.take_sublist _ _))
        rw [hrevE] at hTrev
        have hp0rest : ∀ x ∈ prest, p0.rowid < x.rowid :=
          fun x hx => (List.pairwise_cons.mp hTrev).1 x hx
        have hp0T : p0 ∈ T := by
          have hmem : p0 ∈ T.reverse := by rw [hrevE]; exact List.mem_cons_self _ _
          exact List.mem_reverse.mp hmem
        have hp0S : p0 ∈ S := by rw [← hTD]; exact List.mem_append_left D hp0T
        have hp0P : p0 ∈ P := hSperm.mem_iff.mp hp0S
        have hc'pos : 0 < p0.rowid := hposP p0 hp0P
        have hTge : ∀ x ∈ T, p0.rowid ≤ x.rowid := by
          intro x hx
          have hx' : x ∈ p0 :: prest := by rw [← hrevE]; exact List.mem_reverse.mpr hx
          rcases List.mem_cons.mp hx' with hxeq | hmem
          · rw [hxeq]
          · exact le_of_lt (hp0rest x hmem)
        have hDlt : ∀ x ∈ D, x.rowid < p0.rowid := by
          have hap := List.pairwise_append.mp (by rw [hTD]; exact hSstrict)
          exact fun x hx => hap.2.2 p0 hp0T x hx
        have hminpage : minRowid (T.reverse.map scanRow) = p0.rowid := by
          rw [hrevE, List.map_cons]
          show (prest.map scanRow).foldl (fun acc x => min acc x.rowid) (scanRow p0).rowid
              = p0.rowid
          refine foldl_min_of_le _ _ ?_
          intro x hx
          obtain ⟨y, hy, rfl⟩ := List.mem_map.mp hx
          exact le_of_lt (hp0rest y hy)
        have hfilS : S.filter (fun r => r.rowid < p0.rowid) = D := by
          rw [← hTD, List.filter_append]
          have h1 : T.filter (fun r => r.rowid < p0.rowid) = [] :=
            List.filter_eq_nil_iff.mpr fun x hx => by simpa using not_lt.mpr (hTge x hx)
          have h2 : D.filter (fun r => r.rowid < p0.rowid) = D :=
            List.filter_eq_self.mpr fun x hx => by simpa using hDlt x hx
          rw [h1, h2, List.nil_append]
        have hpool' : poolFor s.db chatID p0.rowid = P.filter (fun r => r.rowid < p0.rowid) := by
          rw [hPdef]
          unfold poolFor
          rw [if_neg (by omega : ¬(p0.rowid = 0))]
          by_cases h0 : cursor = 0
          · rw [if_pos h0]
          · rw [if_neg h0]
            have hp0cur : p0.rowid < cursor := by
              have hmem := hp0P
              rw [hPdef] at hmem
              unfold poolFor at hmem
              rw [if_neg h0] at hmem
              simpa using (List.mem_filter.mp hmem).2
            rw [List.filter_filter]
            refine (List.filter_congr ?_).symm
            intro x hx
            by_cases hxlt : x.rowid < p0.rowid
            · have hxcur : x.rowid < cursor := by omega
              simp [hxlt, hxcur]
            · simp [hxlt]
        have hlenrec : (poolFor s.db chatID p0.rowid).length < fuel := by
          rw [hpool']
          have hfillen : (P.filter (fun r => r.rowid < p0.rowid)).length = D.length := by
            have hfp := (hSperm.filter (fun r => r.rowid < p0.rowid)).length_eq
            rw [hfilS] at hfp
            omega
          have hDlen : D.length = S.length - k.toNat := by
            rw [hDdef]; exact List.length_drop _ _
          omega
        have hrec := ih p0.rowid hlenrec
        have hsortDfil : (P.filter (fun r => r.rowid < p0.rowid)).insertionSort dateDescLe
            = D := by
          rw [sortD_filter P _ hoP, ← hSdef, hfilS]
        have hsortA' : (poolFor s.db chatID p0.rowid).insertionSort dateAscLe = D.reverse := by
          rw [hpool', sortA_eq_reverse_sortD _ (rowsOrdered_filter _ _ hoP), hsortDfil]
        have hpagenil : T.reverse.map scanRow ≠ [] := by rw [hrevE]; simp
        simp only [fetchChain]
        rw [hpage, if_neg hpagenil, hminpage, hrec, hsortA']
        rw [sortA_eq_reverse_sortD P hoP, ← hSdef, ← hTD]
        rw [List.reverse_append, List.map_append]

/-- Claim C1: under the spec's data model for a conversation (message ids
positive, pairwise distinct, and chronologically monotonic — spec §3, the
assumption §9 flags as what cursor pagination relies on), for every page
size k ≥ 1: (1) the pagination procedure — start at the sentinel cursor 0,
recurse with each page's smallest ROWID, stop at an empty page,
concatenate oldest-first — reproduces `FetchAllMessages` exactly once
given fuel beyond the conversation size; (2) the full history carries no
duplicate ids; (3) every page has at most k messages; (4) with a non-zero
cursor every returned id is strictly below the cursor (with cursor 0 the
page is simply the most recent ones, being the date-descending prefix);
(5) every page is in chronological order. -/
theorem fetchChain_eq_fetchAll (s : Store) (chatID k : Int) (hk : 1 ≤ k)
    (hpos : ∀ r ∈ chatRows s.db chatID, 0 < r.rowid)
    (ho : RowsOrdered (chatRows s.db chatID)) :
    (∀ fuel : Nat, (chatRows s.db chatID).length < fuel →
      fetchChain s chatID k fuel 0 = s.FetchAllMessages chatID) ∧
    ((s.FetchAllMessages chatID).map Message.rowid).Nodup ∧
    (∀ cursor : Int, (s.FetchMessages chatID cursor k).length ≤ k.toNat) ∧
    (∀ cursor : Int, cursor ≠ 0 →
      ∀ msg ∈ s.FetchMessages chatID cursor k, msg.rowid < cursor) ∧
    (∀ cursor : Int, ∃ rows : List MsgRow,
      s.FetchMessages chatID cursor k = rows.map scanRow ∧ rows.Pairwise dateAscLe) := by
  have hk' : ¬(k ≤ 0) := by omega
  have hpool0 : poolFor s.db chatID 0 = chatRows s.db chatID := by
    unfold poolFor; rw [if_pos rfl]
  refine ⟨fun fuel hflen => ?_, ?_, fun cursor => ?_, fun cursor hc msg hmsg => ?_, fun cursor => ?_⟩
  · rw [chain_eq_sorted s chatID k hk hpos ho fuel 0 (by rw [hpool0]; exact hflen), hpool0]
    rfl
  · rw [show s.FetchAllMessages chatID
        = ((chatRows s.db chatID).insertionSort dateAscLe).map scanRow from rfl]
    rw [List.map_map]
    have h1 : ((chatRows s.db chatID).insertionSort dateAscLe).Pairwise
        (fun a b => a.rowid ≠ b.rowid) :=
      ((List.perm_insertionSort dateAscLe _).pairwise_iff fun hxy => Ne.symm hxy).mpr ho.1
    exact List.pairwise_map.mpr h1
  · rw [fetchMessages_eq, if_neg hk']
    simp only [List.length_map, List.length_reverse, List.length_take]
    exact Nat.min_le_left _ _
  · rw [fetchMessages_eq, if_neg hk'] at hmsg
    obtain ⟨r, hrmem, rfl⟩ := List.mem_map.mp hmsg
    have hrS : r ∈ (poolFor s.db chatID cursor).insertionSort dateDescLe :=
      List.mem_of_mem_take (List.mem_reverse.mp hrmem)
    have hrP : r ∈ poolFor s.db chatID cursor :=
      (List.perm_insertionSort _ _).mem_iff.mp hrS
    unfold poolFor at hrP
    rw [if_neg hc] at hrP
    simpa using (List.mem_filter.mp hrP).2
  · refine ⟨(((poolFor s.db chatID cursor).insertionSort dateDescLe).take
        ((if k ≤ 0 then messagesPageSize else k).toNat)).reverse,
      fetchMessages_eq s chatID cursor k, ?_⟩
    exact List.pairwise_reverse.mpr
      (List.Pairwise.sublist (List.take_sublist _ _) (List.sorted_insertionSort dateDescLe _))

/-- Concrete store for the C1 witness: conversation 1 has three messages
with ids 1, 2, 3 and dates 10, 20, 30; conversation 2 is unrelated. -/
def chainStore : Store :=
  Store.mk [⟨1, 1, [], 10, true, [], [], []⟩, ⟨1, 2, [], 20, false, [], [], []⟩,
    ⟨1, 3, [], 30, true, [], [], []⟩, ⟨2, 9, [], 5, false, [], [], []⟩]

/-- Witness for C1: three pages of size 2 (fuel 4) over `chainStore`
reproduce the full history of conversation 1. -/
theorem fetchChain_eq_fetchAll_witness :
    ((1 : Int) ≤ 2 ∧ (∀ r ∈ chatRows chainStore.db 1, 0 < r.rowid) ∧
      RowsOrdered (chatRows chainStore.db 1) ∧ (chatRows chainStore.db 1).length < 4) ∧
    fetchChain chainStore 1 2 4 0 = chainStore.FetchAllMessages 1 :=
  ⟨⟨by decide, by decide, ⟨by decide, by decide⟩, by decide⟩,
    (fetchChain_eq_fetchAll chainStore 1 2 (by decide) (by decide)
      ⟨by decide, by decide⟩).1 4 (by decide)⟩
